import Mathlib

/-!
Verification of the ATM-straddle entry/monitor core (`entry_and_monitor.py`).

Shallow embedding conventions:
* Python floats are modelled as `ℚ`.
* A Python value stored in a tick field is a `PyVal`: a number, a non-empty
  string that `float()` parses, the empty string, a non-empty string that
  `float()` rejects, or `None`.
* A dict field that may be absent is an `Option PyVal`; key absent = `none`.
* Python dict truthiness (`if not tick`) is carried explicitly as a `truthy`
  flag on record types that model dicts with unknown extra keys.
* Code that can let an exception escape is modelled in `Except Unit`.
-/

/-!
Executable rational arithmetic. The `Rat` operations bundled with the order
instances (`Rat.add`, `Rat.mul`, `Rat.inv`, `Rat.sub`) are `@[irreducible]`,
so the embedding computes through `mkRat`/`Rat.divInt` instead; the
`*_eq_*` bridge lemmas below identify each with the mathematical operation.
-/

def qAdd (a b : ℚ) : ℚ := mkRat (a.num * b.den + b.num * a.den) (a.den * b.den)

def qSub (a b : ℚ) : ℚ := mkRat (a.num * b.den - b.num * a.den) (a.den * b.den)

def qMul (a b : ℚ) : ℚ := mkRat (a.num * b.num) (a.den * b.den)

def qDiv (a b : ℚ) : ℚ := Rat.divInt (a.num * b.den) (a.den * b.num)

def qAbs (q : ℚ) : ℚ := if q.num < 0 then mkRat (-q.num) q.den else q

def iAbs (z : ℤ) : ℤ := if z < 0 then -z else z

inductive PyVal where
  | pyNone : PyVal
  | num (q : ℚ) : PyVal
  | numStr (q : ℚ) : PyVal
  | emptyStr : PyVal
  | badStr : PyVal
deriving Repr, DecidableEq

/-- Python `float(v)`: `some q` when the conversion succeeds, `none` when it
raises (for `None`, `""`, or a non-numeric string). -/
def pyFloat : PyVal → Option ℚ
  | .pyNone => none
  | .num q => some q
  | .numStr q => some q
  | .emptyStr => none
  | .badStr => none

/-- Python `v in (None, "")`. -/
def isNoneOrEmpty : PyVal → Bool
  | .pyNone => true
  | .emptyStr => true
  | _ => false

/-- Python `d.get(k) in (None, "")`: also true when the key is absent. -/
def isNoneOrEmptyOpt : Option PyVal → Bool
  | none => true
  | some v => isNoneOrEmpty v

/-- The nested `raw` record of a tick (exchange-specific fields). -/
structure RawRec where
  truthy : Bool
  ltp : Option PyVal
  ltpch : Option PyVal
  ltpchp : Option PyVal
deriving Repr, DecidableEq

/-- A tick dict: `ltp`, optional change fields, and an optional `raw` key whose
value may itself be `None` (`some none`) or a dict (`some (some r)`). -/
structure Tick where
  truthy : Bool
  ltp : Option PyVal
  ltpch : Option PyVal
  ltpchp : Option PyVal
  raw : Option (Option RawRec)
deriving Repr, DecidableEq

/-- `tick.get("raw", tick)` uses the tick itself as the raw record. -/
def tickAsRaw (t : Tick) : RawRec :=
  { truthy := t.truthy, ltp := t.ltp, ltpch := t.ltpch, ltpchp := t.ltpchp }

/-- Python `dict.get`: first binding of the key, `None` when absent. -/
def dictGet {κ α : Type} [DecidableEq κ] (m : List (κ × α)) (key : κ) : Option α :=
  match m with
  | [] => none
  | (k, v) :: rest => if k = key then some v else dictGet rest key

/-- The live tick store: symbol ↦ latest tick (`live_data.get`). -/
abbrev TickStore := List (String × Tick)

def lookupTick (live : TickStore) (sym : String) : Option Tick :=
  dictGet live sym

/-- Python `round` (round-half-to-even) on a rational. -/
def pyRound (q : ℚ) : ℤ :=
  let f : ℤ := Rat.floor q
  let frac : ℚ := qSub q (f : ℚ)
  if frac < mkRat 1 2 then f
  else if mkRat 1 2 < frac then f + 1
  else if f % 2 = 0 then f else f + 1

/-- `round_to_strike`: `int(round(price / step) * step)`. -/
def round_to_strike (price : ℚ) (step : ℤ) : ℤ :=
  pyRound (qDiv price (step : ℚ)) * step

/-- First run of 4–7 consecutive digits in the character list
(regex `(\d{4,7})` with `re.search`). -/
def findStrikeRun : List Char → Option (List Char)
  | [] => none
  | c :: rest =>
    if ((c :: rest).takeWhile Char.isDigit).length ≥ 4 then
      some (((c :: rest).takeWhile Char.isDigit).take 7)
    else
      findStrikeRun rest

def digitsToNat (l : List Char) : ℕ :=
  l.foldl (fun acc c => acc * 10 + (c.toNat - 48)) 0

/-- Parse the strike encoded in an option symbol: value of the first 4–7 digit
run, `none` when the symbol has no run of at least 4 digits. -/
def extractStrike (s : String) : Option ℤ :=
  (findStrikeRun s.toList).map (fun l => (digitsToNat l : ℤ))

/-- One entry of the strike map: `{"CE": symbol-or-None, "PE": symbol-or-None}`. -/
structure StrikeEntry where
  ce : Option String
  pe : Option String
deriving Repr, DecidableEq

/-- Python `s.endswith(suff)`, computed on the character list. -/
def strEndsWith (s suff : String) : Bool :=
  suff.toList == (s.toList).drop (s.toList.length - suff.toList.length)

/-- Record a symbol into an entry: call leg if it ends in `"CE"`, put leg if it
ends in `"PE"`, otherwise no leg is touched. -/
def updEntry (e : StrikeEntry) (s : String) : StrikeEntry :=
  if strEndsWith s "CE" then { e with ce := some s }
  else if strEndsWith s "PE" then { e with pe := some s }
  else e

/-- `m.setdefault(strike, {"CE": None, "PE": None})` followed by the suffix
update; insertion order of new keys is preserved as in a Python dict. -/
def insertSym (m : List (ℤ × StrikeEntry)) (strike : ℤ) (s : String) :
    List (ℤ × StrikeEntry) :=
  match m with
  | [] => [(strike, updEntry ⟨none, none⟩ s)]
  | (k, e) :: rest =>
    if k = strike then (k, updEntry e s) :: rest
    else (k, e) :: insertSym rest strike s

/-- `build_strike_map`: map each parseable symbol into the strike map; symbols
without a 4-digit run are skipped. -/
def build_strike_map (option_symbols : List String) : List (ℤ × StrikeEntry) :=
  option_symbols.foldl
    (fun m s =>
      match extractStrike s with
      | none => m
      | some k => insertSym m k s)
    []

/-- Python `min(best :: rest, key := key)`: first element attaining the
minimal key wins ties. -/
def pyMinBy (key : ℤ → ℤ) (best : ℤ) : List ℤ → ℤ
  | [] => best
  | x :: rest => if key x < key best then pyMinBy key x rest else pyMinBy key best rest

/-- `atm_guess if atm_guess in strike_map else min(available, key=lambda s: abs(s - atm_guess))`
over `available = sorted(strike_map.keys())`; `none` when the map is empty. -/
def chooseStrike (strike_map : List (ℤ × StrikeEntry)) (atm_guess : ℤ) : Option ℤ :=
  match List.insertionSort (· ≤ ·) (strike_map.map Prod.fst) with
  | [] => none
  | h :: t =>
    some (if (dictGet strike_map atm_guess).isSome then atm_guess
          else pyMinBy (fun s => iAbs (s - atm_guess)) h t)

/-- `choose_atm_and_symbols`: read the underlying tick, round its price to the
nearest strike multiple, pick the exact or nearest available strike, and return
it with that strike's (possibly `None`) legs. -/
def choose_atm_and_symbols (underlying_sym : String)
    (strike_map : List (ℤ × StrikeEntry)) (live_data : TickStore) (step : ℤ) :
    Option ℤ × Option String × Option String :=
  match lookupTick live_data underlying_sym with
  | none => (none, none, none)
  | some tick =>
    if !tick.truthy then (none, none, none)
    else if isNoneOrEmptyOpt tick.ltp then (none, none, none)
    else
      match tick.ltp.bind pyFloat with
      | none => (none, none, none)
      | some underlying_ltp =>
        match chooseStrike strike_map (round_to_strike underlying_ltp step) with
        | none => (none, none, none)
        | some chosen =>
          match dictGet strike_map chosen with
          | some e => (some chosen, e.ce, e.pe)
          | none => (none, none, none)

/-- `get_ltp`: safe LTP extraction, falling back to the nested raw record. -/
def get_ltp (sym : Option String) (live_data : TickStore) : Option ℚ :=
  match sym with
  | none => none
  | some s =>
    if s = "" then none
    else
      match lookupTick live_data s with
      | none => none
      | some tick =>
        if !tick.truthy then none
        else
          match tick.ltp.bind pyFloat with
          | some q => some q
          | none =>
            match tick.raw with
            | some (some r) => r.ltp.bind pyFloat
            | _ => none

/-- The `ltpch`/`ltp` derivation branch of `compute_underlying_pct_from_tick`:
previous price = ltp − ltpch; percent = |ltpch / previous| × 100. -/
def tryLtpch (raw : RawRec) : Option ℚ :=
  match raw.ltpch, raw.ltp with
  | some c, some p =>
    if isNoneOrEmpty c || isNoneOrEmpty p then none
    else
      match pyFloat c, pyFloat p with
      | some ltpc, some ltp =>
        if qSub ltp ltpc ≠ 0 then some (qAbs (qMul (qDiv ltpc (qSub ltp ltpc)) 100)) else none
      | _, _ => none
  | _, _ => none

/-- `compute_underlying_pct_from_tick`: prefer `ltpchp`, else derive from
`ltpch` and `ltp`; a `float()` failure inside the `try` yields `None`. -/
def compute_underlying_pct_from_tick (tick : Option Tick) : Option ℚ :=
  match tick with
  | none => none
  | some t =>
    if !t.truthy then none
    else
      let rawOpt : Option RawRec :=
        match t.raw with
        | none => some (tickAsRaw t)
        | some none => none
        | some (some r) => some r
      match rawOpt with
      | none => none
      | some raw =>
        if !raw.truthy then none
        else
          match raw.ltpchp with
          | some v =>
            if isNoneOrEmpty v then tryLtpch raw
            else (pyFloat v).map qAbs
          | none => tryLtpch raw

/-- The guarded underlying read
`float(tick["ltp"]) if tick and tick.get("ltp") not in (None, "") else None`;
`.error` when the unguarded `float` raises. -/
def underlyingLtpRead (tick : Option Tick) : Except Unit (Option ℚ) :=
  match tick with
  | none => .ok none
  | some t =>
    if t.truthy && !isNoneOrEmptyOpt t.ltp then
      match t.ltp.bind pyFloat with
      | some q => .ok (some q)
      | none => .error ()
    else .ok none

/-- Per-index configuration: strike step and the two DTE-bucket thresholds. -/
structure Cfg where
  step : ℤ
  thr0 : ℚ
  thr1 : ℚ
deriving Repr, DecidableEq

/-- The trade context assembled by a successful entry check (the wall-clock
`timestamp` and the formatted `reason` string are omitted from the model). -/
structure TradeContext where
  index : String
  expiry_dte : ℤ
  decision : String
  atm_strike : ℤ
  ce_symbol : String
  pe_symbol : String
  underlying_symbol : String
  initial_straddle : ℚ
  underlying_ltp : Option ℚ
  underlying_pct : Option ℚ
deriving Repr, DecidableEq

/-- `EntryModule.run_entry_check`. `.error` models an exception escaping
(the only raise points are the `underlying_symbol_map[...]` key access and the
unguarded `float` on the underlying LTP). -/
def run_entry_check (live_data : TickStore) (nearest_index : String) (dte : ℤ)
    (option_symbols : List String) (config : List (String × Cfg))
    (underlying_symbol_map : List (String × String)) :
    Except Unit (Option TradeContext) :=
  if dte > 1 then .ok none
  else
    match dictGet config nearest_index with
    | none => .ok none
    | some cfg =>
      let strike_map := build_strike_map option_symbols
      match dictGet underlying_symbol_map nearest_index with
      | none => .error ()
      | some underlying_sym =>
        match choose_atm_and_symbols underlying_sym strike_map live_data cfg.step with
        | (chosen?, ce?, pe?) =>
          match chosen?, ce?, pe? with
          | some chosen, some ce_sym, some pe_sym =>
            if chosen = 0 ∨ ce_sym = "" ∨ pe_sym = "" then .ok none
            else
              match get_ltp (some ce_sym) live_data, get_ltp (some pe_sym) live_data with
              | some ce_ltp, some pe_ltp =>
                let straddle := qAdd ce_ltp pe_ltp
                let underlying_tick := lookupTick live_data underlying_sym
                match underlyingLtpRead underlying_tick with
                | .error _ => .error ()
                | .ok underlying_ltp =>
                  let underlying_pct := compute_underlying_pct_from_tick underlying_tick
                  let quiet : Bool :=
                    match underlying_pct with
                    | none => true
                    | some p => decide (p ≤ mkRat 3 10)
                  if dte = 1 then
                    let decision := if straddle ≥ cfg.thr1 ∧ quiet then "HIGH_RISK" else "LOW_RISK"
                    .ok (some ⟨nearest_index, dte, decision, chosen, ce_sym, pe_sym,
                               underlying_sym, straddle, underlying_ltp, underlying_pct⟩)
                  else if dte = 0 then
                    let decision := if straddle ≥ cfg.thr0 ∧ quiet then "HIGH_RR" else "LOW_RISK"
                    .ok (some ⟨nearest_index, dte, decision, chosen, ce_sym, pe_sym,
                               underlying_sym, straddle, underlying_ltp, underlying_pct⟩)
                  else .ok none
              | _, _ => .ok none
          | _, _, _ => .ok none

/-- The default `underlying_symbol_map` baked into the constructor. -/
def defaultUnderlyingMap : List (String × String) :=
  [("NIFTY", "NSE:NIFTY50-INDEX"), ("SENSEX", "BSE:SENSEX-INDEX")]

/-- One monitor update snapshot (the wall-clock timestamp is omitted). -/
structure MonitorUpdate where
  ce_ltp : ℚ
  pe_ltp : ℚ
  straddle : ℚ
  underlying_ltp : ℚ
deriving Repr, DecidableEq

/-- The monitor-relevant slice of the trade context dict. -/
structure MonCtx where
  ce_symbol : Option String
  pe_symbol : Option String
  underlying_symbol : Option String
  last_update : Option MonitorUpdate
deriving Repr, DecidableEq

/-- `MonitorModule._compute_once`; `.error` when the unguarded `float` on the
underlying LTP raises (caught by the loop, not here). -/
def monitor_compute_once (live_data : TickStore) (ctx : MonCtx) :
    Except Unit (Option MonitorUpdate) :=
  let ce_ltp := get_ltp ctx.ce_symbol live_data
  let pe_ltp := get_ltp ctx.pe_symbol live_data
  let underlying_tick := ctx.underlying_symbol.bind (lookupTick live_data)
  match underlyingLtpRead underlying_tick with
  | .error _ => .error ()
  | .ok u? =>
    match ce_ltp, pe_ltp, u? with
    | some c, some p, some u => .ok (some ⟨c, p, qAdd c p, u⟩)
    | _, _, _ => .ok none

/-- Result of one iteration of `MonitorModule._run_loop`: the context after the
iteration, the argument the subscriber callback was invoked with (`none` when
no callback fired), and whether the loop proceeds to the next iteration. -/
structure StepResult where
  ctx : MonCtx
  callback_arg : Option (MonCtx × MonitorUpdate)
  continues : Bool
deriving Repr, DecidableEq

/-- One iteration of `MonitorModule._run_loop` (between two sleeps):
compute once inside the outer `try`; on data or exception, leave the context
alone and continue; on success store `last_update` first, then invoke the
callback (when callable) on the updated context; a raising callback is caught
and the loop still continues. -/
def monitorStep (live_data : TickStore) (ctx : MonCtx)
    (cb_callable cb_raises : Bool) : StepResult :=
  match monitor_compute_once live_data ctx with
  | .error _ => ⟨ctx, none, true⟩
  | .ok none => ⟨ctx, none, true⟩
  | .ok (some u) =>
    let ctx2 := { ctx with last_update := some u }
    if cb_callable then
      -- whether or not cb_raises, the exception is caught: the loop continues.
      ⟨ctx2, some (ctx2, u), true⟩
    else ⟨ctx2, none, true⟩

instance {ε α : Type} [DecidableEq ε] [DecidableEq α] : DecidableEq (Except ε α) := fun a b =>
  match a, b with
  | .ok x, .ok y =>
    if h : x = y then .isTrue (by rw [h]) else .isFalse (fun hh => h (Except.ok.inj hh))
  | .error x, .error y =>
    if h : x = y then .isTrue (by rw [h]) else .isFalse (fun hh => h (Except.error.inj hh))
  | .ok _, .error _ => .isFalse (fun hh => Except.noConfusion hh)
  | .error _, .ok _ => .isFalse (fun hh => Except.noConfusion hh)

/-!  Concrete fixtures used by the witness theorems. -/

/-- A plain tick holding just a numeric-or-other `ltp` value. -/
def uTick (v : PyVal) : Tick := ⟨true, some v, none, none, none⟩

/-- A tick whose data lives in its nested `raw` record. -/
def rawTick (lp lc lcp : Option PyVal) : Tick :=
  ⟨true, none, none, none, some (some ⟨true, lp, lc, lcp⟩)⟩

/-- Store for the spec scenario: underlying at 24510, ATM legs at 70 and 60. -/
def demoStore : TickStore :=
  [("U", uTick (.num 24510)), ("AB24500CE", uTick (.num 70)), ("AB24500PE", uTick (.num 60))]

def demoCfg : Cfg := ⟨50, 120, 180⟩

def demoConfig : List (String × Cfg) := [("NIFTY", demoCfg)]

def demoMap : List (String × String) := [("NIFTY", "U")]

def demoSymbols : List String := ["AB24500CE", "AB24500PE"]

/-- The trade context produced by the entry check on the demo fixtures. -/
def demoCtx : TradeContext :=
  ⟨"NIFTY", 0, "HIGH_RR", 24500, "AB24500CE", "AB24500PE", "U", 130, some 24510, none⟩

/-- Store reaching strike 0: underlying at 0, both legs of strike `0000` live. -/
def zeroStore : TickStore :=
  [("U", uTick (.num 0)), ("AB0000CE", uTick (.num 70)), ("AB0000PE", uTick (.num 60))]

def zeroSymbols : List String := ["AB0000CE", "AB0000PE"]

/-- A symbol with a parseable strike but neither a CE nor a PE suffix. -/
def legless : String := "ZZ1000XX"

/-- Monitor context over the demo fixtures. -/
def demoMonCtx : MonCtx := ⟨some "AB24500CE", some "AB24500PE", some "U", none⟩

/-- The demo store during a data gap: the put symbol is missing. -/
def gapStore : TickStore :=
  [("U", uTick (.num 24510)), ("AB24500CE", uTick (.num 70))]

/-- The monitor update computed from the demo fixtures. -/
def demoUpdate : MonitorUpdate := ⟨70, 60, 130, 24510⟩
theorem qAdd_eq_add (a b : ℚ) : qAdd a b = a + b := (Rat.add_def' a b).symm

theorem qSub_eq_sub (a b : ℚ) : qSub a b = a - b := (Rat.sub_def' a b).symm

theorem qMul_eq_mul (a b : ℚ) : qMul a b = a * b := by
  rw [qMul, Rat.mkRat_eq_divInt, Int.natCast_mul, ← Rat.divInt_mul_divInt' a.num a.den b.num b.den,
    Rat.num_divInt_den, Rat.num_divInt_den]

theorem qDiv_eq_div (a b : ℚ) : qDiv a b = a / b := (Rat.div_def' a b).symm

theorem qAbs_eq_abs (q : ℚ) : qAbs q = |q| := by
  rw [qAbs]
  split
  · rename_i h
    rw [abs_of_neg (by rwa [← Rat.num_neg]), Rat.mkRat_eq_divInt, ← Rat.neg_divInt,
      Rat.num_divInt_den]
  · rename_i h
    rw [abs_of_nonneg (by rw [← Rat.num_nonneg]; omega)]

theorem iAbs_eq_abs (z : ℤ) : iAbs z = |z| := by
  rw [iAbs]
  split
  · rw [abs_of_neg (by omega)]
  · rw [abs_of_nonneg (by omega)]

theorem ratFloor_eq_floor (q : ℚ) : Rat.floor q = Int.floor q := by
  rw [Rat.floor_def, Rat.floor_def']


theorem mkRat_half_eq : mkRat 1 2 = (1 / 2 : ℚ) := by
  norm_num [Rat.mkRat_eq_divInt, Rat.divInt_eq_div]

theorem mkRat_pct_eq : mkRat 3 10 = (3 / 10 : ℚ) := by
  norm_num [Rat.mkRat_eq_divInt, Rat.divInt_eq_div]

theorem dictGet_isSome_iff {κ α : Type} [DecidableEq κ] (m : List (κ × α)) (k : κ) :
    (dictGet m k).isSome ↔ k ∈ m.map Prod.fst := by
  induction m with
  | nil => simp [dictGet]
  | cons hd tl ih =>
    obtain ⟨k0, v0⟩ := hd
    by_cases h : k0 = k
    · subst h
      simp [dictGet]
    · simp only [dictGet, if_neg h, List.map_cons, List.mem_cons]
      rw [ih]
      constructor
      · exact fun hm => Or.inr hm
      · rintro (h1 | h2)
        · exact absurd h1.symm h
        · exact h2

theorem pyMinBy_mem (key : ℤ → ℤ) (b : ℤ) (l : List ℤ) : pyMinBy key b l ∈ b :: l := by
  induction l generalizing b with
  | nil => simp [pyMinBy]
  | cons x rest ih =>
    rw [pyMinBy]
    split
    · have := ih x
      simp only [List.mem_cons] at this ⊢
      tauto
    · have := ih b
      simp only [List.mem_cons] at this ⊢
      tauto

theorem pyMinBy_le (key : ℤ → ℤ) (b : ℤ) (l : List ℤ) :
    ∀ x ∈ b :: l, key (pyMinBy key b l) ≤ key x := by
  induction l generalizing b with
  | nil =>
    intro x hx
    simp only [List.mem_singleton] at hx
    subst hx
    simp [pyMinBy]
  | cons y rest ih =>
    intro x hx
    rw [pyMinBy]
    split
    · rename_i hlt
      rcases List.mem_cons.mp hx with hb | hyr
      · subst hb
        exact le_of_lt (lt_of_le_of_lt (ih y y (List.mem_cons_self y rest)) hlt)
      · exact ih y x hyr
    · rename_i hnlt
      rcases List.mem_cons.mp hx with hb | hyr
      · subst hb
        exact ih x x (List.mem_cons_self x rest)
      · rcases List.mem_cons.mp hyr with hy | hr
        · subst hy
          exact le_trans (ih b b (List.mem_cons_self b rest)) (not_lt.mp hnlt)
        · exact ih b x (List.mem_cons.mpr (Or.inr hr))

theorem pyMinBy_eq_or_lt (key : ℤ → ℤ) (b : ℤ) (l : List ℤ) :
    pyMinBy key b l = b ∨ (pyMinBy key b l ∈ l ∧ key (pyMinBy key b l) < key b) := by
  induction l generalizing b with
  | nil => exact Or.inl rfl
  | cons y rest ih =>
    rw [pyMinBy]
    split
    · rename_i hlt
      right
      rcases ih y with h | ⟨hm, hk⟩
      · rw [h]
        exact ⟨List.mem_cons_self y rest, hlt⟩
      · exact ⟨List.mem_cons.mpr (Or.inr hm), lt_trans hk hlt⟩
    · rcases ih b with h | ⟨hm, hk⟩
      · exact Or.inl h
      · exact Or.inr ⟨List.mem_cons.mpr (Or.inr hm), hk⟩

theorem pyMinBy_tie (key : ℤ → ℤ) (b : ℤ) (l : List ℤ)
    (hs : (b :: l).Sorted (· ≤ ·)) :
    ∀ x ∈ b :: l, key x = key (pyMinBy key b l) → pyMinBy key b l ≤ x := by
  induction l generalizing b with
  | nil =>
    intro x hx _
    simp only [List.mem_singleton] at hx
    subst hx
    simp [pyMinBy]
  | cons y rest ih =>
    have hby : b ≤ y := (List.sorted_cons.mp hs).1 y (List.mem_cons_self y rest)
    have hsyr : (y :: rest).Sorted (· ≤ ·) := (List.sorted_cons.mp hs).2
    have hsbr : (b :: rest).Sorted (· ≤ ·) := by
      rw [List.sorted_cons]
      refine ⟨fun z hz => (List.sorted_cons.mp hs).1 z (List.mem_cons.mpr (Or.inr hz)), ?_⟩
      exact (List.sorted_cons.mp hsyr).2
    intro x hx hkey
    rw [pyMinBy] at hkey ⊢
    split at hkey <;> split
    · -- key y < key b: recurse on (y :: rest)
      rename_i hlt hlt2
      rcases List.mem_cons.mp hx with hb | hyr
      · -- x = b is impossible: min over y::rest is strictly below key b
        subst hb
        have hmin : key (pyMinBy key y rest) ≤ key y :=
          pyMinBy_le key y rest y (List.mem_cons_self y rest)
        omega
      · exact ih y hsyr x hyr hkey
    · rename_i h1 h2
      exact absurd h1 h2
    · rename_i h1 h2
      exact absurd h2 h1
    · -- ¬ key y < key b: y is dropped, recurse on (b :: rest)
      rename_i hnlt hnlt2
      rcases List.mem_cons.mp hx with hb | hyr
      · subst hb
        exact ih x hsbr x (List.mem_cons_self x rest) hkey
      · rcases List.mem_cons.mp hyr with hy | hr
        · -- x = y: the chosen element is b or strictly beats key b ≤ key y
          subst hy
          rcases pyMinBy_eq_or_lt key b rest with he | ⟨_, hk⟩
          · rw [he]
            exact hby
          · omega
        · exact ih b hsbr x (List.mem_cons.mpr (Or.inr hr)) hkey

theorem insertSym_keys (m : List (ℤ × StrikeEntry)) (k : ℤ) (s : String) (j : ℤ) :
    j ∈ (insertSym m k s).map Prod.fst ↔ j ∈ m.map Prod.fst ∨ j = k := by
  induction m with
  | nil => simp [insertSym]
  | cons hd tl ih =>
    obtain ⟨k0, e0⟩ := hd
    by_cases h : k0 = k
    · subst h
      simp only [insertSym, if_true, eq_self_iff_true, List.map_cons, List.mem_cons]
      tauto
    · simp only [insertSym, if_neg h, List.map_cons, List.mem_cons]
      rw [ih]
      tauto

theorem build_strike_map_keys_aux (syms : List String) (acc : List (ℤ × StrikeEntry)) (j : ℤ) :
    j ∈ (syms.foldl
      (fun m s => match extractStrike s with | none => m | some k => insertSym m k s)
      acc).map Prod.fst
    ↔ j ∈ acc.map Prod.fst ∨ ∃ s ∈ syms, extractStrike s = some j := by
  induction syms generalizing acc with
  | nil => simp
  | cons s rest ih =>
    rw [List.foldl_cons, ih]
    rcases he : extractStrike s with _ | k
    · simp only [he]
      constructor
      · rintro (h1 | h2)
        · exact Or.inl h1
        · exact Or.inr (by obtain ⟨s', hs', hx⟩ := h2; exact ⟨s', List.mem_cons.mpr (Or.inr hs'), hx⟩)
      · rintro (h1 | ⟨s', hs', hx⟩)
        · exact Or.inl h1
        · rcases List.mem_cons.mp hs' with rfl | hs''
          · rw [he] at hx
            cases hx
          · exact Or.inr ⟨s', hs'', hx⟩
    · simp only [he, insertSym_keys]
      constructor
      · rintro ((h1 | h2) | h3)
        · exact Or.inl h1
        · exact Or.inr ⟨s, List.mem_cons_self s rest, by rw [he, h2]⟩
        · exact Or.inr (by obtain ⟨s', hs', hx⟩ := h3; exact ⟨s', List.mem_cons.mpr (Or.inr hs'), hx⟩)
      · rintro (h1 | ⟨s', hs', hx⟩)
        · exact Or.inl (Or.inl h1)
        · rcases List.mem_cons.mp hs' with rfl | hs''
          · rw [he] at hx
            exact Or.inl (Or.inr (Option.some.inj hx).symm)
          · exact Or.inr ⟨s', hs'', hx⟩

theorem choose_atm_fst_some_inv (usym : String) (m : List (ℤ × StrikeEntry))
    (live : TickStore) (step : ℤ) (c : ℤ) (a b : Option String)
    (h : choose_atm_and_symbols usym m live step = (some c, a, b)) :
    ∃ t p, lookupTick live usym = some t ∧ t.truthy = true ∧
      isNoneOrEmptyOpt t.ltp = false ∧ t.ltp.bind pyFloat = some p ∧
      chooseStrike m (round_to_strike p step) = some c ∧
      ∃ e, dictGet m c = some e ∧ a = e.ce ∧ b = e.pe := by
  rw [choose_atm_and_symbols] at h
  split at h
  · exact absurd h (by simp)
  · rename_i t ht
    split at h
    · exact absurd h (by simp)
    · rename_i htr
      split at h
      · exact absurd h (by simp)
      · rename_i hne
        split at h
        · exact absurd h (by simp)
        · rename_i p hp
          split at h
          · exact absurd h (by simp)
          · rename_i ch hch
            split at h
            · rename_i e he
              simp only [Prod.mk.injEq] at h
              obtain ⟨hc, ha, hb⟩ := h
              have hc' : ch = c := Option.some.inj hc
              subst hc'
              exact ⟨t, p, ht, by simpa using htr, by simpa using hne, hp, hch,
                e, he, ha.symm, hb.symm⟩
            · exact absurd h (by simp)

/-- C3 counterexample: `"ZZ1000XX"` has the parseable strike 1000 but neither a
`CE` nor a `PE` suffix; `build_strike_map` nevertheless inserts strike 1000,
with both legs null — refuting the claim that such a strike is never inserted
and that every strike present has at least one non-null leg. -/
theorem strike_with_no_leg_is_inserted :
    build_strike_map [legless] = [(1000, ⟨none, none⟩)] := by decide

/-- C3 (amended): every strike key of the built index is the parsed strike of
at least one input symbol, and conversely; a strike observed only through
suffix-less symbols is still inserted (with both legs null). -/
theorem build_strike_map_keys_iff_parseable (syms : List String) (k : ℤ) :
    k ∈ (build_strike_map syms).map Prod.fst ↔ ∃ s ∈ syms, extractStrike s = some k := by
  rw [build_strike_map]
  rw [build_strike_map_keys_aux syms [] k]
  simp

theorem build_strike_map_keys_iff_parseable_witness :
    (1000 : ℤ) ∈ (build_strike_map [legless]).map Prod.fst :=
  (build_strike_map_keys_iff_parseable [legless] 1000).mpr
    ⟨legless, by decide, by decide⟩

/-- C10: when the resolver returns strike 0 (parseable from a `0000` digit run),
the entry check returns no decision even though both legs resolved and both
premiums are available, because `if not chosen` treats the integer 0 as falsy. -/
theorem entry_check_rejects_strike_zero (live : TickStore) (idx : String) (dte : ℤ)
    (syms : List String) (config : List (String × Cfg)) (map : List (String × String))
    (cfg : Cfg) (usym ce pe : String)
    (hdte : dte ≤ 1)
    (hcfg : dictGet config idx = some cfg)
    (hmap : dictGet map idx = some usym)
    (hch : choose_atm_and_symbols usym (build_strike_map syms) live cfg.step
      = (some 0, some ce, some pe))
    (hce : (get_ltp (some ce) live).isSome)
    (hpe : (get_ltp (some pe) live).isSome) :
    run_entry_check live idx dte syms config map = .ok none := by
  rw [run_entry_check, if_neg (by omega)]
  simp [hcfg, hmap, hch]

theorem entry_check_rejects_strike_zero_witness :
    run_entry_check zeroStore "NIFTY" 0 zeroSymbols demoConfig demoMap = .ok none :=
  entry_check_rejects_strike_zero zeroStore "NIFTY" 0 zeroSymbols demoConfig demoMap
    demoCfg "U" "AB0000CE" "AB0000PE" (by decide) (by decide) (by decide) (by decide)
    (by decide) (by decide)

/-- `underlyingLtpRead` succeeds on a tick that already resolved to a price. -/
theorem underlyingLtpRead_resolved (t : Tick) (p : ℚ)
    (htr : t.truthy = true) (hne : isNoneOrEmptyOpt t.ltp = false)
    (hp : t.ltp.bind pyFloat = some p) :
    underlyingLtpRead (some t) = .ok (some p) := by
  rw [underlyingLtpRead, htr, hne]
  simp [hp]

/-- C9: for every tick store, symbol list and threshold configuration, the
entry check returns no decision whenever DTE is outside {0, 1} — both above
(DTE > 1) and below (negative DTE) — and no exception escapes, provided the
module's underlying-symbol map covers its index (as the constructor default
does). -/
theorem entry_check_none_for_dte_outside (live : TickStore) (idx : String) (dte : ℤ)
    (syms : List String) (config : List (String × Cfg)) (map : List (String × String))
    (h0 : dte ≠ 0) (h1 : dte ≠ 1) (hmap : (dictGet map idx).isSome) :
    run_entry_check live idx dte syms config map = .ok none := by
  rw [run_entry_check]
  by_cases hb : dte > 1
  · rw [if_pos hb]
  · rw [if_neg hb]
    rcases hcfg : dictGet config idx with _ | cfg
    · rfl
    · obtain ⟨usym, husym⟩ := Option.isSome_iff_exists.mp hmap
      rw [husym]
      rcases hch : choose_atm_and_symbols usym (build_strike_map syms) live cfg.step
        with ⟨c?, a?, b?⟩
      simp only [hch]
      rcases c? with _ | c
      · simp
      rcases a? with _ | a
      · simp
      rcases b? with _ | b
      · simp
      simp only []
      split
      · rfl
      · rcases hce : get_ltp (some a) live with _ | ce_ltp
        · simp [hce]
        rcases hpe : get_ltp (some b) live with _ | pe_ltp
        · simp [hce, hpe]
        obtain ⟨t, p, ht, htr, hnet, hp, _, _⟩ :=
          choose_atm_fst_some_inv usym (build_strike_map syms) live cfg.step c (some a)
            (some b) hch
        rw [ht, underlyingLtpRead_resolved t p htr hnet hp]

theorem entry_check_none_for_dte_outside_witness :
    run_entry_check demoStore "NIFTY" (-1) demoSymbols demoConfig demoMap = .ok none :=
  entry_check_none_for_dte_outside demoStore "NIFTY" (-1) demoSymbols demoConfig demoMap
    (by decide) (by decide) (by decide)

/-- C4 counterexample: with the only strike (1000) carrying neither leg and the
underlying at 1000, the resolver returns `(some 1000, none, none)` — the strike
component is the chosen strike, not `none` — refuting the claim that the
neither-leg case yields the no-result triple. -/
theorem resolver_keeps_strike_when_both_legs_missing :
    choose_atm_and_symbols "U" (build_strike_map [legless])
      [("U", uTick (.num 1000))] 50 = (some 1000, none, none) := by decide

/-- C4 (amended): an empty StrikeIndex (or an unusable underlying tick) yields
the no-result triple; but when the chosen strike's entry has neither leg, the
resolver returns the chosen strike together with two `none` legs. -/
theorem resolver_empty_index_and_missing_legs (usym : String) (live : TickStore) (step : ℤ) :
    choose_atm_and_symbols usym [] live step = (none, none, none) ∧
    (∀ (m : List (ℤ × StrikeEntry)) (c : ℤ) (a b : Option String),
      choose_atm_and_symbols usym m live step = (some c, a, b) →
      dictGet m c = some ⟨none, none⟩ →
      a = none ∧ b = none) := by
  constructor
  · rw [choose_atm_and_symbols]
    split
    · rfl
    · split
      · rfl
      · split
        · rfl
        · split
          · rfl
          · rename_i p hp
            have : chooseStrike [] (round_to_strike p step) = none := by
              rw [chooseStrike]
              simp
            rw [this]
  · intro m c a b hch he
    obtain ⟨t, p, _, _, _, _, _, e, he2, ha, hb⟩ :=
      choose_atm_fst_some_inv usym m live step c a b hch
    rw [he] at he2
    obtain rfl := (Option.some.inj he2).symm
    exact ⟨ha, hb⟩

theorem resolver_empty_index_and_missing_legs_witness :
    choose_atm_and_symbols "U" [] [("U", uTick (.num 1000))] 50 = (none, none, none) ∧
    ((none : Option String) = none ∧ (none : Option String) = none) :=
  ⟨(resolver_empty_index_and_missing_legs "U" [("U", uTick (.num 1000))] 50).1,
   (resolver_empty_index_and_missing_legs "U" [("U", uTick (.num 1000))] 50).2
     (build_strike_map [legless]) 1000 none none (by decide) (by decide)⟩

/-- Python's banker's rounding lands on a nearest integer. -/
theorem pyRound_nearest (q : ℚ) (m : ℤ) : |(pyRound q : ℚ) - q| ≤ |(m : ℚ) - q| := by
  have hfl : (⌊q⌋ : ℚ) ≤ q := Int.floor_le q
  have hfl1 : q < ⌊q⌋ + 1 := Int.lt_floor_add_one q
  have hm : (m : ℚ) ≤ (⌊q⌋ : ℚ) ∨ (⌊q⌋ : ℚ) + 1 ≤ (m : ℚ) := by
    rcases le_or_lt m ⌊q⌋ with h | h
    · exact Or.inl (by exact_mod_cast h)
    · exact Or.inr (by exact_mod_cast h)
  simp only [pyRound, ratFloor_eq_floor, qSub_eq_sub, mkRat_half_eq]
  split_ifs with h1 h2 h3
  · have e1 : |((⌊q⌋ : ℤ) : ℚ) - q| = q - ⌊q⌋ := by
      rw [abs_sub_comm, abs_of_nonneg (by linarith)]
    rw [e1]
    rcases hm with hm | hm
    · rw [abs_sub_comm, abs_of_nonneg (by linarith)]
      linarith
    · rw [abs_of_nonneg (by linarith)]
      linarith
  · have e1 : |((⌊q⌋ + 1 : ℤ) : ℚ) - q| = (⌊q⌋ : ℚ) + 1 - q := by
      push_cast
      rw [abs_of_nonneg (by linarith)]
    rw [e1]
    rcases hm with hm | hm
    · rw [abs_sub_comm, abs_of_nonneg (by linarith)]
      linarith
    · rw [abs_of_nonneg (by linarith)]
      linarith
  · have hq : q - ⌊q⌋ = 1 / 2 := by linarith
    have e1 : |((⌊q⌋ : ℤ) : ℚ) - q| = 1 / 2 := by
      rw [abs_sub_comm, abs_of_nonneg (by linarith)]
      linarith
    rw [e1]
    rcases hm with hm | hm
    · rw [abs_sub_comm, abs_of_nonneg (by linarith)]
      linarith
    · rw [abs_of_nonneg (by linarith)]
      linarith
  · have hq : q - ⌊q⌋ = 1 / 2 := by linarith
    have e1 : |((⌊q⌋ + 1 : ℤ) : ℚ) - q| = 1 / 2 := by
      push_cast
      rw [abs_of_nonneg (by linarith)]
      linarith
    rw [e1]
    rcases hm with hm | hm
    · rw [abs_sub_comm, abs_of_nonneg (by linarith)]
      linarith
    · rw [abs_of_nonneg (by linarith)]
      linarith

/-- `round_to_strike` lands on a nearest multiple of the step. -/
theorem round_to_strike_nearest (price : ℚ) (step : ℤ) (hstep : 0 < step) (m : ℤ) :
    |((round_to_strike price step : ℤ) : ℚ) - price| ≤ |((m * step : ℤ) : ℚ) - price| := by
  have hs0 : ((step : ℤ) : ℚ) ≠ 0 := by
    exact_mod_cast ne_of_gt hstep
  have hprice : price = price / (step : ℚ) * (step : ℚ) := (div_mul_cancel₀ price hs0).symm
  have habs : |((step : ℤ) : ℚ)| = (step : ℚ) := abs_of_pos (by exact_mod_cast hstep)
  have key := pyRound_nearest (price / (step : ℚ)) m
  rw [round_to_strike, qDiv_eq_div]
  push_cast
  calc |(pyRound (price / (step : ℚ)) : ℚ) * (step : ℚ) - price|
      = |((pyRound (price / (step : ℚ)) : ℚ) - price / (step : ℚ)) * (step : ℚ)| := by
        rw [sub_mul]
        rw [← hprice]
    _ = |(pyRound (price / (step : ℚ)) : ℚ) - price / (step : ℚ)| * (step : ℚ) := by
        rw [abs_mul, habs]
    _ ≤ |(m : ℚ) - price / (step : ℚ)| * (step : ℚ) := by
        have hsp : (0 : ℚ) ≤ (step : ℚ) := by exact_mod_cast le_of_lt hstep
        exact mul_le_mul_of_nonneg_right key hsp
    _ = |((m : ℚ) - price / (step : ℚ)) * (step : ℚ)| := by
        rw [abs_mul, habs]
    _ = |(m : ℚ) * (step : ℚ) - price| := by
        rw [sub_mul, ← hprice]

theorem chooseStrike_spec (m : List (ℤ × StrikeEntry)) (g : ℤ) (hne : m ≠ []) :
    ∃ c, chooseStrike m g = some c ∧
      (g ∈ m.map Prod.fst → c = g) ∧
      (g ∉ m.map Prod.fst →
        c ∈ m.map Prod.fst ∧
        (∀ s ∈ m.map Prod.fst, |c - g| ≤ |s - g|) ∧
        (∀ s ∈ m.map Prod.fst, |s - g| = |c - g| → c ≤ s)) := by
  have hperm := List.perm_insertionSort (· ≤ ·) (m.map Prod.fst)
  have hsorted := List.sorted_insertionSort (· ≤ ·) (m.map Prod.fst)
  rw [chooseStrike]
  rcases hsort : List.insertionSort (· ≤ ·) (m.map Prod.fst) with _ | ⟨h, t⟩
  · exfalso
    rw [hsort] at hperm
    exact hne (List.map_eq_nil_iff.mp (List.Perm.nil_eq hperm).symm)
  · rw [hsort] at hperm hsorted
    have hmem : ∀ x, x ∈ h :: t ↔ x ∈ m.map Prod.fst := fun x => hperm.mem_iff
    by_cases hg : (dictGet m g).isSome
    · refine ⟨g, by simp [hg], fun _ => rfl, fun hnot => ?_⟩
      exact absurd ((dictGet_isSome_iff m g).mp hg) hnot
    · refine ⟨pyMinBy (fun s => iAbs (s - g)) h t, by simp [hg], fun hgk => ?_, fun _ => ?_⟩
      · exact absurd ((dictGet_isSome_iff m g).mpr hgk) hg
      · refine ⟨(hmem _).mp (pyMinBy_mem _ h t), fun s hs => ?_, fun s hs hkey => ?_⟩
        · have := pyMinBy_le (fun s => iAbs (s - g)) h t s ((hmem s).mpr hs)
          simpa only [iAbs_eq_abs] using this
        · refine pyMinBy_tie (fun s => iAbs (s - g)) h t hsorted s ((hmem s).mpr hs) ?_
          simpa only [iAbs_eq_abs] using hkey

/-- C2: with a resolvable numeric underlying price and a non-empty StrikeIndex,
the resolver rounds the price to the nearest multiple of the step (hence the
target is a nearest multiple), picks the target itself when it is a key, and
otherwise picks a strike at minimal absolute distance from the target,
preferring the smaller strike on ties. -/
theorem atm_resolution_nearest (usym : String) (m : List (ℤ × StrikeEntry))
    (live : TickStore) (step : ℤ) (t : Tick) (price : ℚ)
    (ht : lookupTick live usym = some t) (htr : t.truthy = true)
    (hltp : t.ltp = some (PyVal.num price)) (hne : m ≠ []) :
    ∃ c, (choose_atm_and_symbols usym m live step).1 = some c ∧
      (round_to_strike price step ∈ m.map Prod.fst → c = round_to_strike price step) ∧
      (round_to_strike price step ∉ m.map Prod.fst →
        c ∈ m.map Prod.fst ∧
        (∀ s ∈ m.map Prod.fst, |c - round_to_strike price step| ≤ |s - round_to_strike price step|) ∧
        (∀ s ∈ m.map Prod.fst, |s - round_to_strike price step| = |c - round_to_strike price step| →
          c ≤ s)) ∧
      (0 < step → ∀ mult : ℤ,
        |((round_to_strike price step : ℤ) : ℚ) - price| ≤ |((mult * step : ℤ) : ℚ) - price|) := by
  obtain ⟨c, hcs, hexact, hnear⟩ := chooseStrike_spec m (round_to_strike price step) hne
  have hck : c ∈ m.map Prod.fst := by
    by_cases hg : round_to_strike price step ∈ m.map Prod.fst
    · rw [hexact hg]
      exact hg
    · exact (hnear hg).1
  obtain ⟨e, he⟩ := Option.isSome_iff_exists.mp ((dictGet_isSome_iff m c).mpr hck)
  refine ⟨c, ?_, hexact, hnear, fun hstep mult => round_to_strike_nearest price step hstep mult⟩
  have hbind : t.ltp.bind pyFloat = some price := by
    rw [hltp]
    rfl
  have hnoe : isNoneOrEmptyOpt t.ltp = false := by
    rw [hltp]
    rfl
  rw [choose_atm_and_symbols, ht]
  simp [htr, hnoe, hbind, hcs, he]

theorem atm_resolution_nearest_witness :
    ∃ c, (choose_atm_and_symbols "U" (build_strike_map demoSymbols) demoStore 50).1 = some c ∧
      c = 24500 := by
  obtain ⟨c, hc, hexact, _, _⟩ :=
    atm_resolution_nearest "U" (build_strike_map demoSymbols) demoStore 50
      (uTick (.num 24510)) 24510 (by decide) (by decide) (by decide) (by decide)
  refine ⟨c, hc, ?_⟩
  have hg : round_to_strike 24510 50 = 24500 := by decide
  have hk : round_to_strike 24510 50 ∈ (build_strike_map demoSymbols).map Prod.fst := by
    rw [hg]
    decide
  rw [hexact hk, hg]

theorem quiet_iff (pct : Option ℚ) :
    ((match pct with
      | none => true
      | some p => decide (p ≤ mkRat 3 10)) = true)
    ↔ (pct = none ∨ ∃ p, pct = some p ∧ p ≤ 3 / 10) := by
  cases pct with
  | none => simp
  | some p => simp [mkRat_pct_eq]

theorem decision_branch_iff (thr straddle : ℚ) (pct : Option ℚ) (L d : String)
    (hL : ¬L = "LOW_RISK")
    (hd : d = if thr ≤ straddle ∧ ((match pct with
        | none => true
        | some p => decide (p ≤ mkRat 3 10)) = true) then L else "LOW_RISK") :
    (d = L ↔ thr ≤ straddle ∧ (pct = none ∨ ∃ p, pct = some p ∧ p ≤ 3 / 10)) ∧
    (d = "LOW_RISK" ↔ ¬(thr ≤ straddle ∧ (pct = none ∨ ∃ p, pct = some p ∧ p ≤ 3 / 10))) ∧
    (d = L ∨ d = "LOW_RISK") := by
  subst hd
  by_cases hc : thr ≤ straddle ∧ ((match pct with
      | none => true
      | some p => decide (p ≤ mkRat 3 10)) = true)
  · rw [if_pos hc]
    have hc' : thr ≤ straddle ∧ (pct = none ∨ ∃ p, pct = some p ∧ p ≤ 3 / 10) :=
      ⟨hc.1, (quiet_iff pct).mp hc.2⟩
    exact ⟨⟨fun _ => hc', fun _ => rfl⟩,
      ⟨fun h => absurd h hL, fun h => absurd hc' h⟩, Or.inl rfl⟩
  · rw [if_neg hc]
    have hc' : ¬(thr ≤ straddle ∧ (pct = none ∨ ∃ p, pct = some p ∧ p ≤ 3 / 10)) :=
      fun h => hc ⟨h.1, (quiet_iff pct).mpr h.2⟩
    exact ⟨⟨fun h => absurd h.symm hL, fun h => absurd h hc'⟩,
      ⟨fun _ => hc', fun _ => rfl⟩, Or.inr rfl⟩

/-- C1: for every entry-check run with DTE in {0, 1} that produced a decision
record (so the ATM strike and both legs resolved and both premiums and the
underlying price were read): the decision is the risk-seeking label of the DTE
bucket (HIGH_RISK for DTE = 1, HIGH_RR for DTE = 0) if and only if the straddle
premium reaches that bucket's threshold and the percent-change is unavailable
or at most 0.3; in every other case it is LOW_RISK; and no third label ever
occurs. -/
theorem entry_decision_rule (live : TickStore) (idx : String) (dte : ℤ)
    (syms : List String) (config : List (String × Cfg)) (map : List (String × String))
    (cfg : Cfg) (ctx : TradeContext)
    (hdte : dte = 0 ∨ dte = 1)
    (hcfg : dictGet config idx = some cfg)
    (hrun : run_entry_check live idx dte syms config map = .ok (some ctx)) :
    (ctx.decision = (if dte = 1 then "HIGH_RISK" else "HIGH_RR") ↔
      ((if dte = 1 then cfg.thr1 else cfg.thr0) ≤ ctx.initial_straddle ∧
        (ctx.underlying_pct = none ∨ ∃ p, ctx.underlying_pct = some p ∧ p ≤ 3 / 10))) ∧
    (ctx.decision = "LOW_RISK" ↔
      ¬((if dte = 1 then cfg.thr1 else cfg.thr0) ≤ ctx.initial_straddle ∧
        (ctx.underlying_pct = none ∨ ∃ p, ctx.underlying_pct = some p ∧ p ≤ 3 / 10))) ∧
    (ctx.decision = (if dte = 1 then "HIGH_RISK" else "HIGH_RR") ∨ ctx.decision = "LOW_RISK") := by
  rw [run_entry_check] at hrun
  rcases hdte with rfl | rfl
  all_goals rw [if_neg (by omega), hcfg] at hrun
  all_goals simp only [] at hrun
  all_goals rcases hmm : dictGet map idx with _ | usym
  case _ => rw [hmm] at hrun; exact absurd hrun (by simp)
  case _ =>
    rw [hmm] at hrun
    rcases hch : choose_atm_and_symbols usym (build_strike_map syms) live cfg.step
      with ⟨c?, a?, b?⟩
    simp only [hch] at hrun
    rcases c? with _ | c
    · exact absurd hrun (by simp)
    rcases a? with _ | a
    · exact absurd hrun (by simp)
    rcases b? with _ | b
    · exact absurd hrun (by simp)
    simp only [] at hrun
    split at hrun
    · exact absurd hrun (by simp)
    rcases hce : get_ltp (some a) live with _ | ce_ltp
    · rw [hce] at hrun; exact absurd hrun (by simp)
    rcases hpe : get_ltp (some b) live with _ | pe_ltp
    · rw [hce, hpe] at hrun; exact absurd hrun (by simp)
    rw [hce, hpe] at hrun
    simp only [] at hrun
    rcases hu : underlyingLtpRead (lookupTick live usym) with e | u?
    · rw [hu] at hrun; exact absurd hrun (by simp)
    rw [hu] at hrun
    simp only [] at hrun
    split at hrun
    · rename_i h01
      exact absurd h01 (by decide)
    split at hrun
    · obtain rfl := Option.some.inj (Except.ok.inj hrun)
      simp only [if_neg (show ¬((0 : ℤ) = 1) by decide)]
      exact decision_branch_iff cfg.thr0 (qAdd ce_ltp pe_ltp)
        (compute_underlying_pct_from_tick (lookupTick live usym)) "HIGH_RR" _ (by decide) rfl
    · rename_i h00
      simp at h00
  case _ => rw [hmm] at hrun; exact absurd hrun (by simp)
  case _ =>
    rw [hmm] at hrun
    rcases hch : choose_atm_and_symbols usym (build_strike_map syms) live cfg.step
      with ⟨c?, a?, b?⟩
    simp only [hch] at hrun
    rcases c? with _ | c
    · exact absurd hrun (by simp)
    rcases a? with _ | a
    · exact absurd hrun (by simp)
    rcases b? with _ | b
    · exact absurd hrun (by simp)
    simp only [] at hrun
    split at hrun
    · exact absurd hrun (by simp)
    rcases hce : get_ltp (some a) live with _ | ce_ltp
    · rw [hce] at hrun; exact absurd hrun (by simp)
    rcases hpe : get_ltp (some b) live with _ | pe_ltp
    · rw [hce, hpe] at hrun; exact absurd hrun (by simp)
    rw [hce, hpe] at hrun
    simp only [] at hrun
    rcases hu : underlyingLtpRead (lookupTick live usym) with e | u?
    · rw [hu] at hrun; exact absurd hrun (by simp)
    rw [hu] at hrun
    simp only [] at hrun
    split at hrun
    · obtain rfl := Option.some.inj (Except.ok.inj hrun)
      simp only [if_pos (show ((1 : ℤ) = 1) from rfl)]
      exact decision_branch_iff cfg.thr1 (qAdd ce_ltp pe_ltp)
        (compute_underlying_pct_from_tick (lookupTick live usym)) "HIGH_RISK" _ (by decide) rfl
    · rename_i h11
      simp at h11

theorem entry_decision_rule_witness : demoCtx.decision = "HIGH_RR" :=
  (entry_decision_rule demoStore "NIFTY" 0 demoSymbols demoConfig demoMap demoCfg demoCtx
    (Or.inl rfl) (by decide) (by decide)).1.mpr ⟨by decide, Or.inl (by decide)⟩
/-- C5 counterexample: with `ltpchp` a present non-numeric string and perfectly
numeric `ltpch = 10`, `ltp = 110`, the `float` call on `ltpchp` raises inside
the `try`, so the function returns `none` — it does not fall through to the
`ltpch`/`ltp` derivation (which would give 10.0 as the claim, as stated,
requires). -/
theorem pct_change_nonnumeric_field_blocks_derivation :
    compute_underlying_pct_from_tick
      (some (rawTick (some (.num 110)) (some (.num 10)) (some .badStr))) = none ∧
    tryLtpch ⟨true, some (.num 110), some (.num 10), some .badStr⟩ = some 10 := by
  decide

/-- C5 (amended): `percentChange` returns the absolute value of the
pre-computed `ltpchp` field whenever it is present, non-empty and numeric, and
`none` when it is present and non-empty but non-numeric (the conversion error
short-circuits); only when `ltpchp` is absent, `None` or empty does it fall
through to the `ltpch`/`ltp` derivation, which yields
`|change / (price − change)| × 100` when both are present and numeric and the
previous price is non-zero, and `none` otherwise; it never raises (the model is
a total function).  In particular `ltp = 110, ltpch = 10 ↦ 10.0` and
`ltpchp = "0.42" ↦ 0.42`. -/
theorem pct_change_characterization :
    (∀ r : RawRec, r.truthy = true →
      (∀ v : PyVal, r.ltpchp = some v → isNoneOrEmpty v = false →
        compute_underlying_pct_from_tick
          (some ⟨true, none, none, none, some (some r)⟩)
          = (pyFloat v).map (fun q => |q|)) ∧
      ((r.ltpchp = none ∨ ∃ v, r.ltpchp = some v ∧ isNoneOrEmpty v = true) →
        compute_underlying_pct_from_tick
          (some ⟨true, none, none, none, some (some r)⟩)
          = tryLtpch r)) ∧
    (∀ (r : RawRec) (c p : PyVal) (qc qp : ℚ),
      r.ltpch = some c → r.ltp = some p →
      isNoneOrEmpty c = false → isNoneOrEmpty p = false →
      pyFloat c = some qc → pyFloat p = some qp →
      (qp - qc ≠ 0 → tryLtpch r = some |qc / (qp - qc) * 100|) ∧
      (qp - qc = 0 → tryLtpch r = none)) ∧
    (∀ r : RawRec,
      (r.ltpch = none ∨ r.ltp = none ∨
        (∃ v, r.ltpch = some v ∧ (isNoneOrEmpty v = true ∨ pyFloat v = none)) ∨
        (∃ v, r.ltp = some v ∧ (isNoneOrEmpty v = true ∨ pyFloat v = none))) →
      tryLtpch r = none) ∧
    compute_underlying_pct_from_tick
      (some (rawTick (some (.num 110)) (some (.num 10)) none)) = some 10 ∧
    compute_underlying_pct_from_tick
      (some (rawTick none none (some (.numStr (mkRat 42 100))))) = some (42 / 100) := by
  refine ⟨?_, ?_, ?_, by decide, ?_⟩
  · intro r htr
    constructor
    · intro v hv hne
      have habs : qAbs = fun q : ℚ => |q| := funext qAbs_eq_abs
      simp [compute_underlying_pct_from_tick, hv, hne, htr, habs]
    · rintro (hv | ⟨v, hv, hne⟩)
      · simp [compute_underlying_pct_from_tick, hv, htr]
      · simp [compute_underlying_pct_from_tick, hv, hne, htr]
  · intro r c p qc qp hc hp hnec hnep hqc hqp
    constructor
    · intro hprev
      have hprev' : qSub qp qc ≠ 0 := by
        rw [qSub_eq_sub]
        exact hprev
      simp only [tryLtpch, hc, hp, hnec, hnep, hqc, hqp, if_pos hprev']
      rw [qAbs_eq_abs, qMul_eq_mul, qDiv_eq_div, qSub_eq_sub]
      simp
    · intro hprev
      have hprev' : ¬qSub qp qc ≠ 0 := by
        rw [qSub_eq_sub]
        exact fun hcon => hcon hprev
      simp [tryLtpch, hc, hp, hnec, hnep, hqc, hqp, if_neg hprev']
  · intro r hmiss
    rcases hmiss with hc | hp | ⟨v, hv, hbad⟩ | ⟨v, hv, hbad⟩
    · simp [tryLtpch, hc]
    · rcases hc : r.ltpch with _ | c
      · simp [tryLtpch, hc]
      · simp [tryLtpch, hc, hp]
    · rcases hbad with hbad | hbad
      · rcases hp : r.ltp with _ | p
        · simp [tryLtpch, hv, hp]
        · simp [tryLtpch, hv, hp, hbad]
      · rcases hp : r.ltp with _ | p
        · simp [tryLtpch, hv, hp]
        · by_cases hne : isNoneOrEmpty v = true
          · simp [tryLtpch, hv, hp, hne]
          · simp only [Bool.not_eq_true] at hne
            by_cases hnep : isNoneOrEmpty p = true
            · simp [tryLtpch, hv, hp, hne, hnep]
            · simp only [Bool.not_eq_true] at hnep
              simp [tryLtpch, hv, hp, hne, hnep, hbad]
    · rcases hc : r.ltpch with _ | c
      · simp [tryLtpch, hc]
      · rcases hbad with hbad | hbad
        · simp [tryLtpch, hc, hv, hbad]
        · by_cases hnec : isNoneOrEmpty c = true
          · simp [tryLtpch, hc, hv, hnec]
          · simp only [Bool.not_eq_true] at hnec
            by_cases hnev : isNoneOrEmpty v = true
            · simp [tryLtpch, hc, hv, hnec, hnev]
            · simp only [Bool.not_eq_true] at hnev
              simp [tryLtpch, hc, hv, hnec, hnev, hbad]
  · have h42 : (42 / 100 : ℚ) = mkRat 42 100 := by
      norm_num [Rat.mkRat_eq_divInt, Rat.divInt_eq_div]
    rw [h42]
    decide

theorem pct_change_characterization_witness :
    tryLtpch ⟨true, some (PyVal.num 110), some (PyVal.num 10), none⟩
      = some |(10 : ℚ) / (110 - 10) * 100| :=
  (pct_change_characterization.2.1 ⟨true, some (.num 110), some (.num 10), none⟩
    (.num 10) (.num 110) 10 110 rfl rfl rfl rfl rfl rfl).1 (by norm_num)
/-- C6: in a monitor iteration where any of the three re-read values (call
premium, put premium, underlying price) is unavailable, no callback is
invoked, the context (including `last_update`) is left unchanged, no exception
escapes the iteration, and the loop continues. -/
theorem monitor_skips_iteration_on_missing_data (live : TickStore) (ctx : MonCtx)
    (cb_callable cb_raises : Bool)
    (h : get_ltp ctx.ce_symbol live = none ∨ get_ltp ctx.pe_symbol live = none ∨
      underlyingLtpRead (ctx.underlying_symbol.bind (lookupTick live)) = .ok none) :
    monitorStep live ctx cb_callable cb_raises = ⟨ctx, none, true⟩ := by
  have hco : monitor_compute_once live ctx = .error () ∨
      monitor_compute_once live ctx = .ok none := by
    rw [monitor_compute_once]
    rcases hu : underlyingLtpRead (ctx.underlying_symbol.bind (lookupTick live)) with e | u?
    · left
      rfl
    · right
      rcases h with h | h | h
      · simp [h]
      · simp [h]
      · rw [hu] at h
        obtain rfl : u? = none := Except.ok.inj h
        simp
  rcases hco with hco | hco <;> rw [monitorStep, hco]

theorem monitor_skips_iteration_on_missing_data_witness :
    monitorStep gapStore demoMonCtx true true = ⟨demoMonCtx, none, true⟩ :=
  monitor_skips_iteration_on_missing_data gapStore demoMonCtx true true
    (Or.inr (Or.inl (by decide)))

/-- C7: in a successful monitor iteration the produced update's straddle is the
sum of the call and put premiums read in that iteration, the update is stored
into the context's `last_update` slot, the callback (when callable) receives
the already-updated context together with the update, and the loop continues —
even when the callback raises (the exception is caught). -/
theorem monitor_success_stores_update_before_callback (live : TickStore) (ctx : MonCtx)
    (cb_raises : Bool) (u : MonitorUpdate)
    (h : monitor_compute_once live ctx = .ok (some u)) :
    u.straddle = u.ce_ltp + u.pe_ltp ∧
    get_ltp ctx.ce_symbol live = some u.ce_ltp ∧
    get_ltp ctx.pe_symbol live = some u.pe_ltp ∧
    (∀ cb_callable,
      monitorStep live ctx cb_callable cb_raises =
        ⟨{ ctx with last_update := some u },
         if cb_callable then some ({ ctx with last_update := some u }, u) else none,
         true⟩) := by
  have hinv : get_ltp ctx.ce_symbol live = some u.ce_ltp ∧
      get_ltp ctx.pe_symbol live = some u.pe_ltp ∧
      u.straddle = qAdd u.ce_ltp u.pe_ltp := by
    rw [monitor_compute_once] at h
    rcases hu : underlyingLtpRead (ctx.underlying_symbol.bind (lookupTick live)) with e | u?
    · rw [hu] at h
      exact absurd h (by simp)
    · rw [hu] at h
      rcases hce : get_ltp ctx.ce_symbol live with _ | c
      · rw [hce] at h
        exact absurd h (by simp)
      rcases hpe : get_ltp ctx.pe_symbol live with _ | p
      · rw [hce, hpe] at h
        exact absurd h (by simp)
      rcases u? with _ | uu
      · rw [hce, hpe] at h
        exact absurd h (by simp)
      rw [hce, hpe] at h
      simp only [] at h
      have hu2 : u = ⟨c, p, qAdd c p, uu⟩ := (Option.some.inj (Except.ok.inj h)).symm
      subst hu2
      exact ⟨rfl, rfl, rfl⟩
  refine ⟨by rw [hinv.2.2, qAdd_eq_add], hinv.1, hinv.2.1, fun cb_callable => ?_⟩
  rw [monitorStep, h]
  cases cb_callable <;> simp

theorem monitor_success_stores_update_before_callback_witness :
    monitorStep demoStore demoMonCtx true true =
      ⟨⟨some "AB24500CE", some "AB24500PE", some "U", some demoUpdate⟩,
       some (⟨some "AB24500CE", some "AB24500PE", some "U", some demoUpdate⟩, demoUpdate),
       true⟩ :=
  (monitor_success_stores_update_before_callback demoStore demoMonCtx true demoUpdate
    (by decide)).2.2.2 true

/-- C8: the price accessor returns `none` — and never raises, being a total
function — when the symbol is missing or empty, the stored tick is absent or
falsy, or the `ltp` field (after the raw fallback) is unusable; when the
top-level `ltp` is unusable it reads `ltp` from the nested raw record (when
that is a dict) before giving up; and a numeric top-level `ltp` is returned
as the price. -/
theorem price_accessor_characterization (s : String) (live : TickStore) :
    get_ltp none live = none ∧
    get_ltp (some "") live = none ∧
    (lookupTick live s = none → get_ltp (some s) live = none) ∧
    (∀ t, lookupTick live s = some t → t.truthy = false → get_ltp (some s) live = none) ∧
    (∀ t q, lookupTick live s = some t → t.truthy = true → s ≠ "" →
      t.ltp.bind pyFloat = some q → get_ltp (some s) live = some q) ∧
    (∀ t r, lookupTick live s = some t → t.truthy = true → s ≠ "" →
      t.ltp.bind pyFloat = none → t.raw = some (some r) →
      get_ltp (some s) live = r.ltp.bind pyFloat) ∧
    (∀ t, lookupTick live s = some t → t.truthy = true → s ≠ "" →
      t.ltp.bind pyFloat = none → (t.raw = none ∨ t.raw = some none) →
      get_ltp (some s) live = none) := by
  refine ⟨rfl, rfl, ?_, ?_, ?_, ?_, ?_⟩
  · intro hl
    rw [get_ltp]
    by_cases hs : s = ""
    · rw [if_pos hs]
    · rw [if_neg hs, hl]
  · intro t ht htr
    rw [get_ltp]
    by_cases hs : s = ""
    · rw [if_pos hs]
    · rw [if_neg hs, ht]
      simp [htr]
  · intro t q ht htr hs hq
    rw [get_ltp, if_neg hs, ht]
    simp [htr, hq]
  · intro t r ht htr hs hq hraw
    rw [get_ltp, if_neg hs, ht]
    simp [htr, hq, hraw]
  · intro t ht htr hs hq hraw
    rw [get_ltp, if_neg hs, ht]
    rcases hraw with hraw | hraw <;> simp [htr, hq, hraw]

theorem price_accessor_characterization_witness :
    get_ltp (some "AB24500CE") demoStore = some 70 :=
  (price_accessor_characterization "AB24500CE" demoStore).2.2.2.2.1
    (uTick (.num 70)) 70 (by decide) (by decide) (by decide) (by decide)
